import Mathlib

/-!
# Verification of the amazon-vine-monitor crawl/dispatch engine

Shallow embedding of the scraper's core logic (change detection, section
crawling with pagination escape, category-snapshot pruning, the suggestion
store, classification batching and result reconciliation, and configuration
parsing), translated from the TypeScript sources, together with theorems
settling the specification claims.

Conventions:
* JavaScript objects keyed by ASIN become association lists
  `List (String × VineItem)`; object spread `{ ...a, ...b }` is `objMerge`.
* MongoDB collections become `List` of record structures; `updateOne`
  updates the first match (`updateFirst`), `updateMany` maps over matches.
* `Date` timestamps become `Nat` parameters (`now`), passed explicitly.
* `parseInt` results are `Option Int` (`none` = `NaN`); JS `x || d`
  on numbers is `jsNumOr` (both `NaN` and `0` are falsy).
* `await`ed callbacks are sequential composition; the cycle's observable
  ordering is an explicit event trace (`Ev`).
-/

namespace VineMonitor

/-! ## Data model (src/types.ts) -/

/-- Vine tab identifiers matching the UI (src/types.ts). -/
inductive VineTabId where
  | recommended
  | available
  | additional
deriving DecidableEq, BEq, Repr

/-- Single item as scraped from Vine (src/types.ts `VineItem`);
`seenAt : Date` modelled as `Nat`. -/
structure VineItem where
  asin : String
  tab : VineTabId
  name : String
  link : String
  imageUrl : Option String
  seenAt : Nat
deriving DecidableEq, BEq, Repr

/-- Stored record: item plus nullable `suggestedAt` (src/types.ts
`VineItemRecord`). -/
structure VineItemRecord where
  asin : String
  tab : VineTabId
  name : String
  link : String
  imageUrl : Option String
  seenAt : Nat
  suggestedAt : Option Nat
deriving DecidableEq, BEq, Repr

/-- Counts per tab from a single scan (src/types.ts `TabCounts`). -/
structure TabCounts where
  recommended : Nat
  available : Nat
  additional : Nat
deriving DecidableEq, BEq, Repr

/-! ## Change detector (src/index.ts `anyCountIncreased`, `tick`) -/

/-- src/index.ts `anyCountIncreased`: `!prev` warrants a crawl, otherwise a
strict increase in any tab's count does. -/
def anyCountIncreased (prev : Option TabCounts) (curr : TabCounts) : Bool :=
  match prev with
  | none => true
  | some p =>
    decide (p.recommended < curr.recommended) ||
    decide (p.available < curr.available) ||
    decide (p.additional < curr.additional)

/-- Observable outcome of one `tick`: whether the full scan ran, and which
counts were handed to `saveLastTabCounts`. -/
structure TickOutcome where
  ranFullScan : Bool
  savedBaseline : TabCounts
deriving DecidableEq, Repr

/-- src/index.ts `tick`: if `anyCountIncreased last current` then
`runFullScan` runs (which persists the scan's freshly scraped `tabCounts`,
here the parameter `scanCounts`); otherwise the scan is skipped and
`saveLastTabCounts(current)` persists the freshly fetched counts. -/
def tick (last : Option TabCounts) (current scanCounts : TabCounts) : TickOutcome :=
  if anyCountIncreased last current then ⟨true, scanCounts⟩ else ⟨false, current⟩

/-! ## Config parsing (src/config.ts) -/

/-- JS `x || fallback` on a number that may be `NaN` (modelled `none`):
both `NaN` and `0` are falsy. -/
def jsNumOr (v : Option Int) (fallback : Int) : Int :=
  match v with
  | none => fallback
  | some n => if n = 0 then fallback else n

/-- src/config.ts `aiBatchSize`:
`Math.min(500, Math.max(10, parseInt(optionalEnv("AI_BATCH_SIZE","50"),10) || 50))`.
`parsed` is the `parseInt` result for the effective env string (`none` for a
non-numeric value; a missing variable parses the default `"50"` to `some 50`). -/
def aiBatchSize (parsed : Option Int) : Int :=
  min 500 (max 10 (jsNumOr parsed 50))

/-- src/config.ts `aiMaxItemsPerRun`:
`Math.min(2000, Math.max(50, parseInt(optionalEnv("AI_MAX_ITEMS_PER_RUN","500"),10) || 500))`. -/
def aiMaxItemsPerRun (parsed : Option Int) : Int :=
  min 2000 (max 50 (jsNumOr parsed 500))

/-! ## Reconciliation of oracle results (src/index.ts `runFullScan`) -/

/-- JS `String.prototype.toUpperCase` on the ASCII identifiers this code
handles: uppercase every character. (Char-list form so the kernel can
evaluate it on concrete inputs.) -/
def jsToUpper (s : String) : String :=
  ⟨s.data.map Char.toUpper⟩

/-- JS `String.prototype.trim`: strip leading and trailing whitespace. -/
def jsTrim (s : String) : String :=
  ⟨((s.data.dropWhile Char.isWhitespace).reverse.dropWhile Char.isWhitespace).reverse⟩

/-- The normalization `String(a).toUpperCase().trim()` from src/index.ts lines 56 and 59. -/
def normalizeAsin (a : String) : String :=
  jsTrim (jsToUpper a)

/-- Object lookup `allItems[k]` on the ASIN-keyed scan result. -/
def lookupItem (allItems : List (String × VineItem)) (k : String) : Option VineItem :=
  (allItems.find? (fun p => p.1 == k)).map Prod.snd

/-- src/index.ts `appealingItems`:
`appealingAsins.map(a => allItems[norm a]).filter(it => it != null)`. -/
def appealingItemsOf (appealingAsins : List String)
    (allItems : List (String × VineItem)) : List VineItem :=
  (appealingAsins.map (fun a => lookupItem allItems (normalizeAsin a))).filterMap id

/-- src/index.ts `missingAsins`:
`appealingAsins.filter(a => !allItems[norm a])`. -/
def missingAsinsOf (appealingAsins : List String)
    (allItems : List (String × VineItem)) : List String :=
  appealingAsins.filter (fun a => (lookupItem allItems (normalizeAsin a)).isNone)

/-- Modelled from the spec: the scraper version in this snapshot types
`onBatchProcessed` as `Promise<void>` and discards the classification
callback's return value, while `runFullScan` destructures `appealingAsins`
from the scraper result; the accumulation glue is absent from the sources.
Per the spec, every classification call's result list is collected (each
call awaited) and reconciliation runs over all of them, so the cycle's
oracle output is the concatenation of the per-batch results. -/
def cycleAppealingAsins (oracle : List VineItem → List String)
    (batches : List (List VineItem)) : List String :=
  (batches.map oracle).flatten

/-! ## Subcategory preference filter (src/ai.ts / part_004) and planner -/

/-- Result processing of `filterSubcategoriesByGuidance` in src/ai.ts:
`filtered = names.filter(n => validSet.has(n.trim()))` over
`validSet = Set(subcategoryNames.map(n => n.trim()))`, then
`return filtered.length > 0 ? filtered : subcategoryNames` — an empty
filtered subset silently falls back to the full list. `names` is the
oracle's parsed reply. -/
def filterSubcategoriesSelect (subcategoryNames names : List String) : List String :=
  let validSet := subcategoryNames.map jsTrim
  let filtered := names.filter (fun n => validSet.contains (jsTrim n))
  if filtered.length > 0 then filtered else subcategoryNames

/-- Result processing of `filterSubcategoriesByGuidance` in the logging
variant (src/unnamed/part_004): identical filtering, but the filtered
subset is returned unchanged (`return filtered`), so an empty oracle
subset stays empty. -/
def filterSubcategoriesSelectLogged (subcategoryNames names : List String) : List String :=
  let validSet := subcategoryNames.map jsTrim
  names.filter (fun n => validSet.contains (jsTrim n))

/-! ## Suggestion store (src/db.ts) -/

/-- The `Omit<VineItemRecord, "suggestedAt">` argument of `upsertItem` and
`saveScanItems`. -/
structure VineItemInput where
  asin : String
  tab : VineTabId
  name : String
  link : String
  imageUrl : Option String
  seenAt : Nat
deriving DecidableEq, BEq, Repr

/-- Mongo `updateOne`: rewrite the first document matching the filter
(the collection has a unique index on `asin`, so at most one matches). -/
def updateFirst (p : VineItemRecord → Bool) (f : VineItemRecord → VineItemRecord) :
    List VineItemRecord → List VineItemRecord
  | [] => []
  | r :: rs => if p r then f r :: rs else r :: updateFirst p f rs

/-- The `$set` document of src/db.ts `upsertItem` for an existing record:
name, link, imageUrl, seenAt always; `suggestedAt` only when `suggested`. -/
def applySet (item : VineItemInput) (suggested : Bool) (now : Nat)
    (r : VineItemRecord) : VineItemRecord :=
  { r with
    name := item.name
    link := item.link
    imageUrl := item.imageUrl
    seenAt := item.seenAt
    suggestedAt := if suggested then some now else r.suggestedAt }

/-- The document inserted by src/db.ts `upsertItem` when no record exists:
`{ ...item, suggestedAt: suggested ? new Date() : null }`. -/
def newRecord (item : VineItemInput) (suggested : Bool) (now : Nat) : VineItemRecord :=
  ⟨item.asin, item.tab, item.name, item.link, item.imageUrl, item.seenAt,
    if suggested then some now else none⟩

/-- src/db.ts `upsertItem`: `findOne({asin})`; on hit `updateOne` with the
`$set` above, otherwise `insertOne`. `now` is `new Date()`. -/
def upsertItem (store : List VineItemRecord) (item : VineItemInput)
    (suggested : Bool) (now : Nat) : List VineItemRecord :=
  match store.find? (fun r => r.asin == item.asin) with
  | some _ => updateFirst (fun r => r.asin == item.asin) (applySet item suggested now) store
  | none => store ++ [newRecord item suggested now]

/-- src/db.ts `markAsSuggested`: no-op on an empty list, else
`updateMany({asin: {$in: asins}}, {$set: {suggestedAt: new Date()}})`. -/
def markAsSuggested (store : List VineItemRecord) (asins : List String)
    (now : Nat) : List VineItemRecord :=
  if asins.isEmpty then store
  else store.map (fun r =>
    if asins.contains r.asin then { r with suggestedAt := some now } else r)

/-- src/db.ts `saveScanItems`: upsert each item, suggested iff its
upper-cased asin is in the upper-cased suggested set. -/
def saveScanItems (store : List VineItemRecord) (items : List VineItemInput)
    (suggestedAsins : List String) (now : Nat) : List VineItemRecord :=
  let suggestedSet := suggestedAsins.map jsToUpper
  items.foldl (fun st item =>
    upsertItem st item (suggestedSet.contains (jsToUpper item.asin)) now) store

/-- View of the stored record for an asin: `none` if absent, else
`some` of its (nullable) `suggestedAt`. -/
def suggestedAtOf (store : List VineItemRecord) (a : String) : Option (Option Nat) :=
  (store.find? (fun r => r.asin == a)).map (fun r => r.suggestedAt)

/-! ## Category count snapshots (src/db.ts) -/

/-- Subcategory entry inside a category count doc (src/db.ts
`SubcategoryCount`). -/
structure SubcategoryCount where
  cn : String
  name : Option String
  count : Nat
deriving DecidableEq, BEq, Repr

/-- One doc per top-level category (src/db.ts `CategoryCountDoc`);
`updatedAt` omitted (never read back). -/
structure CategoryCountDoc where
  pn : String
  name : Option String
  count : Option Nat
  subcategories : List SubcategoryCount
deriving DecidableEq, BEq, Repr

/-- src/db.ts `formatCategoryKey`: `categoryId` alone for a null/empty
subcategory, else `categoryId + "|" + subcategoryId`. -/
def formatCategoryKey (categoryId : String) (subcategoryId : Option String) : String :=
  match subcategoryId with
  | none => categoryId
  | some s => if s = "" then categoryId else categoryId ++ "|" ++ s

/-- The expression `key.includes("|") ? key.split("|")[0] : key` from
`clearCategoryCountsNotIn`. -/
def categoryPartOfKey (key : String) : String :=
  if key.contains '|' then (key.splitOn "|").headD key else key

/-- src/db.ts `clearCategoryCountsNotIn`: early-returns on an empty key set;
otherwise deletes docs whose category id underlies no seen key, restricts
the subcategories of visited surviving docs to the seen keys, and clears
the subcategories of unvisited surviving docs. -/
def clearCategoryCountsNotIn (seenCategoryKeys visitedCategoryIds : List String)
    (docs : List CategoryCountDoc) : List CategoryCountDoc :=
  if seenCategoryKeys.isEmpty then docs
  else
    let validCategoryIds := seenCategoryKeys.map categoryPartOfKey
    (docs.filter (fun d => validCategoryIds.contains d.pn)).map (fun d =>
      let kept :=
        if visitedCategoryIds.contains d.pn then
          d.subcategories.filter (fun s =>
            seenCategoryKeys.contains (formatCategoryKey d.pn (some s.cn)))
        else []
      { d with subcategories := kept })

/-- The key set of src/db.ts `getCategoryCounts`: `pn` when a parent-only
count is stored, plus one composite key per subcategory entry. -/
def snapshotKeys (docs : List CategoryCountDoc) : List String :=
  (docs.map (fun d =>
    (match d.count with
      | some _ => [d.pn]
      | none => []) ++
    d.subcategories.map (fun s => formatCategoryKey d.pn (some s.cn)))).flatten

/-- Just the subcategory-level keys of the stored snapshot. -/
def subSnapshotKeys (docs : List CategoryCountDoc) : List String :=
  (docs.map (fun d =>
    d.subcategories.map (fun s => formatCategoryKey d.pn (some s.cn)))).flatten

/-- Subcategory node parsed from the filter bar (part_001 `SubcategoryNode`). -/
structure SubcategoryNode where
  name : String
  subcategoryId : String
  count : Nat
deriving DecidableEq, BEq, Repr

/-- part_001 `collectUnseenItemsSmart` line 1345:
`toScrape = subs.filter(s => filteredNames.includes(s.name))` — the set of
subcategory leaves the planner will crawl under a category. -/
def plannerToScrape (subs : List SubcategoryNode) (filteredNames : List String) :
    List SubcategoryNode :=
  subs.filter (fun s => filteredNames.contains s.name)

/-! ## Section crawler (part_001 `collectUnseenItemsInTab`) -/

/-- JS object spread `{ ...a, ...b }` on ASIN-keyed objects: keys of `a`
keep their position (values overridden by `b` on collision), new keys of
`b` follow. -/
def objMerge (a b : List (String × VineItem)) : List (String × VineItem) :=
  (a.map (fun p =>
    match b.find? (fun q => q.1 == p.1) with
    | some q => (p.1, q.2)
    | none => p)) ++
  b.filter (fun q => ¬ a.any (fun p => p.1 == q.1))

/-- part_001 lines 1471-1473: `maxFromCount = Math.ceil(totalCount/24) || 1`,
`maxPages = Math.min(500, maxFromPagination || maxFromCount)`. -/
def maxPagesOf (maxFromPagination totalCount : Nat) : Nat :=
  let c := (totalCount + 23) / 24
  let maxFromCount := if c = 0 then 1 else c
  min 500 (if maxFromPagination = 0 then maxFromCount else maxFromPagination)

/-- Observable outcome of one leaf crawl: the accumulated ASIN-keyed items,
the pages displayed and extracted (0-based, in order) with each page's
unseen yield (the `onPageProcessed` argument `Object.values(pageItems)`;
the callback is only invoked when the yield is non-empty), and the pages
for which `goToNextPage` was invoked. -/
structure CrawlOut where
  items : List (String × VineItem)
  pageYields : List (Nat × List VineItem)
  navAttempts : List Nat
deriving Repr

/-- The per-page seen-filter of part_001 lines 1510-1520: when a
seen-predicate is supplied, `getSeenAsins(pageAsins)` is fetched and the
returned asins are deleted from the page's items. -/
def filterUnseen (getSeen : Option (List String → List String))
    (raw : List (String × VineItem)) : List (String × VineItem) :=
  match getSeen with
  | none => raw
  | some g => raw.filter (fun p => ! (g (raw.map Prod.fst)).contains p.1)

/-- The check `maxItemsForTab != null && unseenAsinCount >= maxItemsForTab`
(part_001 line 1536) for a single page's unseen count. -/
def capReached (cap : Option Nat) (unseenCount : Nat) : Bool :=
  match cap with
  | some c => decide (c ≤ unseenCount)
  | none => false

/-- The page loop of part_001 `collectUnseenItemsInTab` (lines 1485-1542),
fuel = remaining pages up to `maxPages`. Per iteration: for `pageNum > 0`
try `goToNextPage` (stop on failure); extract the page (`pages pageNum`);
strip seen asins (`filterUnseen`); spread the remainder into the
accumulator; then stop if the page yielded zero unseen items (escape), else
stop if `maxItemsForTab` is set and the page's unseen count reached it
(note: the escape check precedes the cap check, and the cap check uses the
single page's yield, exactly as in the source). -/
def collectGo (pages : Nat → List (String × VineItem))
    (getSeen : Option (List String → List String)) (advance : Nat → Bool)
    (cap : Option Nat) : Nat → Nat → List (String × VineItem) → CrawlOut
  | 0, _, acc => ⟨acc, [], []⟩
  | fuel + 1, pageNum, acc =>
    if pageNum ≠ 0 ∧ advance pageNum = false then ⟨acc, [], [pageNum]⟩
    else if (filterUnseen getSeen (pages pageNum)).length = 0 then
      ⟨objMerge acc (filterUnseen getSeen (pages pageNum)),
        [(pageNum, (filterUnseen getSeen (pages pageNum)).map Prod.snd)],
        if pageNum = 0 then [] else [pageNum]⟩
    else if capReached cap (filterUnseen getSeen (pages pageNum)).length then
      ⟨objMerge acc (filterUnseen getSeen (pages pageNum)),
        [(pageNum, (filterUnseen getSeen (pages pageNum)).map Prod.snd)],
        if pageNum = 0 then [] else [pageNum]⟩
    else
      ⟨(collectGo pages getSeen advance cap fuel (pageNum + 1)
          (objMerge acc (filterUnseen getSeen (pages pageNum)))).items,
        (pageNum, (filterUnseen getSeen (pages pageNum)).map Prod.snd) ::
          (collectGo pages getSeen advance cap fuel (pageNum + 1)
            (objMerge acc (filterUnseen getSeen (pages pageNum)))).pageYields,
        (if pageNum = 0 then [] else [pageNum]) ++
          (collectGo pages getSeen advance cap fuel (pageNum + 1)
            (objMerge acc (filterUnseen getSeen (pages pageNum)))).navAttempts⟩

/-- part_001 `collectUnseenItemsInTab`: run the page loop from page 0 with
an empty accumulator, for at most `maxPagesOf maxFromPagination totalCount`
pages. -/
def collectUnseenItemsInTab (pages : Nat → List (String × VineItem))
    (getSeen : Option (List String → List String)) (advance : Nat → Bool)
    (maxFromPagination totalCount : Nat) (cap : Option Nat) : CrawlOut :=
  collectGo pages getSeen advance cap (maxPagesOf maxFromPagination totalCount) 0 []

/-! ## Batch dispatch (part_001 `runScraper`, lines 1589-1605 and 1716-1718) -/

/-- The `while (pendingNewItems.length >= batchSize)` splice loop of
`onPageProcessed`: repeatedly remove a `batchSize` prefix as a flushed
batch. Fuel = the queue length (each iteration removes `batchSize ≥ 1`
items; the loop only exists when a positive batch size was configured,
hence the `0 < batchSize` guard). -/
def flushGo (batchSize : Nat) : Nat → List VineItem → List (List VineItem) →
    List VineItem × List (List VineItem)
  | 0, pending, acc => (pending, acc)
  | fuel + 1, pending, acc =>
    if 0 < batchSize ∧ batchSize ≤ pending.length then
      flushGo batchSize fuel (pending.drop batchSize) (acc ++ [pending.take batchSize])
    else (pending, acc)

/-- Run the splice loop to completion on a queue. -/
def flushLoop (batchSize : Nat) (pending : List VineItem) :
    List VineItem × List (List VineItem) :=
  flushGo batchSize pending.length pending []

/-- One `onPageProcessed` call (part_001 lines 1595-1604): cap the incoming
chunk to the remaining budget (`Math.max(0, maxNewToScore - totalNewQueued)`,
Nat subtraction), push it onto the queue, flush full batches. Returns the
new queue, the new total-queued count, and the batches flushed by this
call, in order. -/
def enqueueChunk (batchSize maxNew : Nat) (pending : List VineItem)
    (totalQueued : Nat) (chunk : List VineItem) :
    List VineItem × Nat × List (List VineItem) :=
  let toQueue := chunk.take (maxNew - totalQueued)
  let fl := flushLoop batchSize (pending ++ toQueue)
  (fl.1, totalQueued + toQueue.length, fl.2)

/-- Dispatch state transition for one unseen-page chunk, accumulating the
flushed batches. -/
def dispatchStep (batchSize maxNew : Nat)
    (st : List VineItem × Nat × List (List VineItem)) (c : List VineItem) :
    List VineItem × Nat × List (List VineItem) :=
  let r := enqueueChunk batchSize maxNew st.1 st.2.1 c
  (r.1, r.2.1, st.2.2 ++ r.2.2)

/-- A cycle's dispatch: fold the enqueue step over the stream of unseen-page
chunks, then flush any non-empty remainder once (part_001 lines 1716-1718).
Returns every batch handed to `onBatchProcessed`, in order. -/
def runDispatch (batchSize maxNew : Nat) (chunks : List (List VineItem)) :
    List (List VineItem) :=
  let st := chunks.foldl (dispatchStep batchSize maxNew)
    (([] : List VineItem), (0 : Nat), ([] : List (List VineItem)))
  st.2.2 ++ (if st.1 = [] then [] else [st.1])

/-! ## Cycle event trace (C9) -/

/-- Observable events of a cycle: a page being displayed and extracted, a
classification call being issued, a classification call resolving. -/
inductive Ev where
  | fetch (pageNum : Nat)
  | classifyCall (batch : List VineItem)
  | classifyRet (batch : List VineItem)
deriving DecidableEq, BEq, Repr

/-- Trace of the crawl/dispatch composition: one `fetch` per displayed page
(the crawler's `pageYields`, in order); a page's non-empty unseen yield is
handed to `onPageProcessed`, and each batch it flushes appears as a
`classifyCall` immediately followed by its `classifyRet`, because
`runScraper` `await`s `onBatchProcessed(batch)` inside the splice loop,
and `collectUnseenItemsInTab` `await`s `onPageProcessed` before its
termination checks and the next page; the remainder flush after all pages
is likewise awaited. -/
def traceOfYields (batchSize maxNew : Nat) :
    List (Nat × List VineItem) → List VineItem → Nat → List Ev
  | [], pending, _ =>
    if pending = [] then []
    else [Ev.classifyCall pending, Ev.classifyRet pending]
  | (n, ys) :: rest, pending, tq =>
    if ys = [] then Ev.fetch n :: traceOfYields batchSize maxNew rest pending tq
    else
      Ev.fetch n ::
        (((enqueueChunk batchSize maxNew pending tq ys).2.2.map
            (fun b => [Ev.classifyCall b, Ev.classifyRet b])).flatten ++
          traceOfYields batchSize maxNew rest
            (enqueueChunk batchSize maxNew pending tq ys).1
            (enqueueChunk batchSize maxNew pending tq ys).2.1)

/-- A trace never leaves a classification call in flight: every
`classifyCall` is immediately followed by its `classifyRet`, so no `fetch`
(and no further event at all) happens while a call is outstanding. -/
def CallsAwaited (t : List Ev) : Prop :=
  ∀ (i : Nat) (b : List VineItem), t[i]? = some (Ev.classifyCall b) →
    t[i + 1]? = some (Ev.classifyRet b)

end VineMonitor

namespace VineMonitor

/-! ## Claim theorems: detector and config -/

/-- The decision `tick` acts on is exactly the detector's verdict. -/
theorem tick_ranFullScan (last : Option TabCounts) (current scanCounts : TabCounts) :
    (tick last current scanCounts).ranFullScan = anyCountIncreased last current := by
  unfold tick
  split <;> simp_all

/-- C7: the detector warrants a full crawl iff no previous counts exist or
some tab's current count strictly exceeds its previous one; on the skip path
the freshly fetched current counts are persisted as the new baseline; and the
spec scenario prev {5,10,0} / curr {5,12,0} yields "crawl". -/
theorem C7_change_detector : ∀ (p curr scan : TabCounts),
    ((tick (some p) curr scan).ranFullScan = true ↔
      (p.recommended < curr.recommended ∨ p.available < curr.available ∨
        p.additional < curr.additional)) ∧
    (tick none curr scan).ranFullScan = true ∧
    ((tick (some p) curr scan).ranFullScan = false →
      (tick (some p) curr scan).savedBaseline = curr) ∧
    anyCountIncreased (some ⟨5, 10, 0⟩) ⟨5, 12, 0⟩ = true := by
  intro p curr scan
  refine ⟨?_, ?_, ?_, by decide⟩
  · rw [tick_ranFullScan]
    simp [anyCountIncreased, or_assoc]
  · rw [tick_ranFullScan]
    rfl
  · rw [tick_ranFullScan]
    intro h
    simp [tick, h]

/-- Witness for C7: a concrete skip tick persists the fetched counts. -/
theorem C7_change_detector_witness :
    (tick (some ⟨5, 10, 0⟩) ⟨5, 10, 0⟩ ⟨9, 9, 9⟩).ranFullScan = false ∧
    (tick (some ⟨5, 10, 0⟩) ⟨5, 10, 0⟩ ⟨9, 9, 9⟩).savedBaseline = ⟨5, 10, 0⟩ :=
  ⟨by decide, (C7_change_detector ⟨5, 10, 0⟩ ⟨5, 10, 0⟩ ⟨9, 9, 9⟩).2.2.1 (by decide)⟩

/-- C10: for every parse outcome (including `none`, i.e. a missing or
non-numeric env value) the batch size lies in [10, 500] and the per-run cap
in [50, 2000]; the `NaN` case falls back to 50 resp. 500. -/
theorem C10_config_bounds : ∀ (p q : Option Int),
    10 ≤ aiBatchSize p ∧ aiBatchSize p ≤ 500 ∧
    50 ≤ aiMaxItemsPerRun q ∧ aiMaxItemsPerRun q ≤ 2000 ∧
    aiBatchSize none = 50 ∧ aiMaxItemsPerRun none = 500 := by
  intro p q
  have hb : ∀ (v : Option Int), 10 ≤ aiBatchSize v ∧ aiBatchSize v ≤ 500 := by
    intro v
    unfold aiBatchSize jsNumOr
    rcases v with _ | n
    · constructor <;> simp [min_def, max_def]
    · by_cases h : n = 0 <;> simp only [h, if_true, if_false] <;>
        constructor <;> simp [min_def, max_def] <;> split <;> omega
  have hm : ∀ (v : Option Int), 50 ≤ aiMaxItemsPerRun v ∧ aiMaxItemsPerRun v ≤ 2000 := by
    intro v
    unfold aiMaxItemsPerRun jsNumOr
    rcases v with _ | n
    · constructor <;> simp [min_def, max_def]
    · by_cases h : n = 0 <;> simp only [h, if_true, if_false] <;>
        constructor <;> simp [min_def, max_def] <;> split <;> omega
  exact ⟨(hb p).1, (hb p).2, (hm q).1, (hm q).2, by decide, by decide⟩

/-! ## Claim theorems: reconciliation (C1) -/

/-- Concrete scraped item for the C1 scenario. -/
def scenarioItem : VineItem :=
  ⟨"B0ABC12345", VineTabId.available, "Widget", "https://www.amazon.com/dp/B0ABC12345", none, 1⟩

/-- C1: every batch's oracle result is collected into the cycle's appealing
identifiers; reconciliation delivers exactly those returned identifiers
whose normalization matches a scraped item record (each matched identifier's
record is included, each unmatched identifier is excluded and reported in
`missingAsins`); and in the spec scenario — oracle returns
`["B0ABC12345", "B0NOTREAL99"]`, only `B0ABC12345` scraped — the appealing
items are exactly the `B0ABC12345` record and `B0NOTREAL99` is the sole
unmatched ASIN. -/
theorem C1_reconciliation : ∀ (oracle : List VineItem → List String)
    (batches : List (List VineItem)) (allItems : List (String × VineItem)),
    (∀ b ∈ batches, ∀ a ∈ oracle b, a ∈ cycleAppealingAsins oracle batches) ∧
    (∀ it, it ∈ appealingItemsOf (cycleAppealingAsins oracle batches) allItems ↔
      ∃ a ∈ cycleAppealingAsins oracle batches,
        lookupItem allItems (normalizeAsin a) = some it) ∧
    (∀ a ∈ cycleAppealingAsins oracle batches,
      (lookupItem allItems (normalizeAsin a) = none ↔
        a ∈ missingAsinsOf (cycleAppealingAsins oracle batches) allItems)) ∧
    appealingItemsOf ["B0ABC12345", "B0NOTREAL99"] [("B0ABC12345", scenarioItem)] =
      [scenarioItem] ∧
    missingAsinsOf ["B0ABC12345", "B0NOTREAL99"] [("B0ABC12345", scenarioItem)] =
      ["B0NOTREAL99"] := by
  intro oracle batches allItems
  refine ⟨?_, ?_, ?_, by decide, by decide⟩
  · intro b hb a ha
    simp only [cycleAppealingAsins, List.mem_flatten, List.mem_map]
    exact ⟨oracle b, ⟨b, hb, rfl⟩, ha⟩
  · intro it
    simp [appealingItemsOf, List.mem_filterMap, List.mem_map]
  · intro a ha
    simp [missingAsinsOf, List.mem_filter, Option.isNone_iff_eq_none, ha]

/-- Witness for C1: instantiated at the scenario oracle and batch, the
reconciliation iffs hold at the concrete records. -/
theorem C1_reconciliation_witness :
    [scenarioItem] ∈ [[scenarioItem]] ∧
    (scenarioItem ∈
        appealingItemsOf
          (cycleAppealingAsins (fun _ => ["B0ABC12345", "B0NOTREAL99"]) [[scenarioItem]])
          [("B0ABC12345", scenarioItem)] ↔
      ∃ a ∈ cycleAppealingAsins (fun _ => ["B0ABC12345", "B0NOTREAL99"]) [[scenarioItem]],
        lookupItem [("B0ABC12345", scenarioItem)] (normalizeAsin a) = some scenarioItem) :=
  ⟨by simp,
    (C1_reconciliation (fun _ => ["B0ABC12345", "B0NOTREAL99"]) [[scenarioItem]]
      [("B0ABC12345", scenarioItem)]).2.1 scenarioItem⟩

/-! ## Claim theorems: suggestion store (C3) -/

/-- Evaluating `suggestedAtOf` on a cons whose head carries the asin. -/
theorem suggestedAtOf_cons_of_eq {r : VineItemRecord} {a : String}
    (rs : List VineItemRecord) (h : r.asin = a) :
    suggestedAtOf (r :: rs) a = some r.suggestedAt := by
  simp [suggestedAtOf, List.find?_cons, h]

/-- Evaluating `suggestedAtOf` skips a head with a different asin. -/
theorem suggestedAtOf_cons_of_ne {r : VineItemRecord} {a : String}
    (rs : List VineItemRecord) (h : ¬ r.asin = a) :
    suggestedAtOf (r :: rs) a = suggestedAtOf rs a := by
  simp only [suggestedAtOf, List.find?_cons]
  rw [show (r.asin == a) = false by simpa using h]

/-- Since `find?` only looks at the first match, a hit in the prefix decides
the result over an appended list. -/
theorem find?_append_of_some (p : VineItemRecord → Bool) (l2 : List VineItemRecord)
    (r : VineItemRecord) :
    ∀ l1 : List VineItemRecord, l1.find? p = some r → (l1 ++ l2).find? p = some r := by
  intro l1
  induction l1 with
  | nil => intro h; cases h
  | cons x xs ih =>
    intro h
    by_cases hp : p x = true
    · rw [List.find?_cons_of_pos xs hp] at h
      rw [List.cons_append, List.find?_cons_of_pos (xs ++ l2) hp]
      exact h
    · rw [List.find?_cons_of_neg xs hp] at h
      rw [List.cons_append, List.find?_cons_of_neg (xs ++ l2) hp]
      exact ih h

/-- Effect of `upsertItem`'s `updateOne` branch on a record whose
`suggestedAt` is already set: preserved verbatim unless this very asin is
being upserted with `suggested = true`, in which case it becomes `now`. -/
theorem suggestedAtOf_updateFirst (item : VineItemInput) (sugg : Bool) (now : Nat) :
    ∀ (store : List VineItemRecord) (a : String) (t : Nat),
    suggestedAtOf store a = some (some t) →
    suggestedAtOf
        (updateFirst (fun r => r.asin == item.asin) (applySet item sugg now) store) a =
      some (some (if item.asin = a ∧ sugg = true then now else t)) := by
  intro store
  induction store with
  | nil => intro a t h; cases h
  | cons r rs ih =>
    intro a t h
    by_cases hq : r.asin = item.asin
    · rw [show updateFirst (fun r => r.asin == item.asin) (applySet item sugg now) (r :: rs) =
          applySet item sugg now r :: rs by simp [updateFirst, hq]]
      by_cases ha : r.asin = a
      · have hra : r.suggestedAt = some t := by
          rw [suggestedAtOf_cons_of_eq rs ha] at h
          exact Option.some.inj h
        have hia : item.asin = a := hq.symm.trans ha
        rw [suggestedAtOf_cons_of_eq rs (show (applySet item sugg now r).asin = a from ha)]
        cases sugg with
        | true => simp [applySet, hia]
        | false => simp [applySet, hia, hra]
      · have hrs : suggestedAtOf rs a = some (some t) := by
          rwa [suggestedAtOf_cons_of_ne rs ha] at h
        have hia : ¬ item.asin = a := fun hc => ha (hq.trans hc)
        rw [suggestedAtOf_cons_of_ne rs (show ¬ (applySet item sugg now r).asin = a from ha)]
        simpa [hia] using hrs
    · rw [show updateFirst (fun r => r.asin == item.asin) (applySet item sugg now) (r :: rs) =
          r :: updateFirst (fun r => r.asin == item.asin) (applySet item sugg now) rs by
            simp [updateFirst, hq]]
      by_cases ha : r.asin = a
      · have hra : r.suggestedAt = some t := by
          rw [suggestedAtOf_cons_of_eq rs ha] at h
          exact Option.some.inj h
        have hia : ¬ item.asin = a := fun hc => hq (ha.symm ▸ hc ▸ rfl)
        rw [suggestedAtOf_cons_of_eq _ ha]
        simp [hia, hra]
      · have hrs : suggestedAtOf rs a = some (some t) := by
          rwa [suggestedAtOf_cons_of_ne rs ha] at h
        rw [suggestedAtOf_cons_of_ne _ ha]
        exact ih a t hrs

/-- Effect of `upsertItem` on a record whose `suggestedAt` is already set. -/
theorem suggestedAtOf_upsertItem (store : List VineItemRecord) (item : VineItemInput)
    (sugg : Bool) (now : Nat) (a : String) (t : Nat)
    (h : suggestedAtOf store a = some (some t)) :
    suggestedAtOf (upsertItem store item sugg now) a =
      some (some (if item.asin = a ∧ sugg = true then now else t)) := by
  obtain ⟨r0, hr0⟩ : ∃ r0, store.find? (fun r => r.asin == a) = some r0 := by
    cases hfa : store.find? (fun r => r.asin == a) with
    | some r0 => exact ⟨r0, rfl⟩
    | none => simp [suggestedAtOf, hfa] at h
  unfold upsertItem
  cases hf : store.find? (fun r => r.asin == item.asin) with
  | some r1 => exact suggestedAtOf_updateFirst item sugg now store a t h
  | none =>
    have hia : ¬ item.asin = a := by
      intro hc
      rw [hc] at hf
      rw [hr0] at hf
      cases hf
    simp only [suggestedAtOf] at h ⊢
    rw [find?_append_of_some _ _ _ store hr0]
    rw [hr0] at h
    simpa [hia] using h

/-- Effect of the `updateMany` in `markAsSuggested` on a record whose
`suggestedAt` is set: never cleared; overwritten with `now` exactly when
the asin is listed. -/
theorem suggestedAtOf_mark_map (asins : List String) (now : Nat) :
    ∀ (store : List VineItemRecord) (a : String) (t : Nat),
    suggestedAtOf store a = some (some t) →
    suggestedAtOf
        (store.map (fun r =>
          if asins.contains r.asin then { r with suggestedAt := some now } else r)) a =
      some (some (if asins.contains a = true then now else t)) := by
  intro store
  induction store with
  | nil => intro a t h; cases h
  | cons r rs ih =>
    intro a t h
    rw [List.map_cons]
    by_cases ha : r.asin = a
    · have hra : r.suggestedAt = some t := by
        rw [suggestedAtOf_cons_of_eq rs ha] at h
        exact Option.some.inj h
      by_cases hc : asins.contains r.asin = true
      · rw [if_pos hc]
        rw [suggestedAtOf_cons_of_eq _
          (show ({ r with suggestedAt := some now } : VineItemRecord).asin = a from ha)]
        have hca : asins.contains a = true := ha ▸ hc
        have hmem : a ∈ asins := by simpa using hca
        simp [hmem]
      · rw [if_neg hc]
        rw [suggestedAtOf_cons_of_eq _ ha]
        have hcna : ¬ asins.contains a = true := fun hx => hc (ha ▸ hx)
        have hmem : a ∉ asins := by simpa using hcna
        simp [hmem, hra]
    · have hrs : suggestedAtOf rs a = some (some t) := by
        rwa [suggestedAtOf_cons_of_ne rs ha] at h
      have hhead : ¬ (if asins.contains r.asin then { r with suggestedAt := some now }
          else r).asin = a := by
        by_cases hc : asins.contains r.asin = true
        · rw [if_pos hc]; exact ha
        · rw [if_neg hc]; exact ha
      rw [suggestedAtOf_cons_of_ne _ hhead]
      exact ih a t hrs

/-- Effect of `markAsSuggested` on a record whose `suggestedAt` is set. -/
theorem suggestedAtOf_markAsSuggested (asins : List String) (now : Nat)
    (store : List VineItemRecord) (a : String) (t : Nat)
    (h : suggestedAtOf store a = some (some t)) :
    suggestedAtOf (markAsSuggested store asins now) a =
      some (some (if asins.contains a = true then now else t)) := by
  unfold markAsSuggested
  by_cases he : asins.isEmpty
  · have hnil : asins = [] := by simpa [List.isEmpty_iff] using he
    subst hnil
    simpa using h
  · rw [if_neg he]
    exact suggestedAtOf_mark_map asins now store a t h

/-- Unfolding `saveScanItems` peels one upsert per item. -/
theorem saveScanItems_cons (store : List VineItemRecord) (i : VineItemInput)
    (is : List VineItemInput) (suggestedAsins : List String) (now : Nat) :
    saveScanItems store (i :: is) suggestedAsins now =
      saveScanItems
        (upsertItem store i ((suggestedAsins.map jsToUpper).contains (jsToUpper i.asin)) now)
        is suggestedAsins now := rfl

/-- A whole `saveScanItems` pass never clears a set `suggestedAt`. -/
theorem saveScanItems_preserves_suggested (suggestedAsins : List String) (now : Nat) :
    ∀ (items : List VineItemInput) (store : List VineItemRecord) (a : String) (t : Nat),
    suggestedAtOf store a = some (some t) →
    ∃ u, suggestedAtOf (saveScanItems store items suggestedAsins now) a = some (some u) := by
  intro items
  induction items with
  | nil => intro store a t h; exact ⟨t, h⟩
  | cons i is ih =>
    intro store a t h
    rw [saveScanItems_cons]
    have h' := suggestedAtOf_upsertItem store i
      ((suggestedAsins.map jsToUpper).contains (jsToUpper i.asin)) now a t h
    exact ih _ a _ h'

/-- Counterexample to C3: a record already suggested at time 5 has its
`suggestedAt` overwritten to 7 by `upsertItem` with `suggested = true`, and
to 9 by `markAsSuggested` — store operations do overwrite a non-null
suggested-at with a different timestamp. -/
theorem C3_overwrite_counterexample :
    suggestedAtOf [⟨"B0AAAAAAA1", VineTabId.recommended, "old", "l", none, 1, some 5⟩]
        "B0AAAAAAA1" = some (some 5) ∧
    suggestedAtOf
        (upsertItem [⟨"B0AAAAAAA1", VineTabId.recommended, "old", "l", none, 1, some 5⟩]
          ⟨"B0AAAAAAA1", VineTabId.recommended, "new", "l", none, 2⟩ true 7)
        "B0AAAAAAA1" = some (some 7) ∧
    suggestedAtOf
        (markAsSuggested [⟨"B0AAAAAAA1", VineTabId.recommended, "old", "l", none, 1, some 5⟩]
          ["B0AAAAAAA1"] 9)
        "B0AAAAAAA1" = some (some 9) ∧
    some (5 : Nat) ≠ some 7 := by
  refine ⟨by decide, by decide, by decide, by decide⟩

/-- C3 (amended): a non-null `suggestedAt` is never cleared by `upsertItem`,
`markAsSuggested` or `saveScanItems`, and `upsertItem` with
`suggested = false` preserves its exact value; but `upsertItem` with
`suggested = true` on that asin and `markAsSuggested` on a listed asin
overwrite it with the current time — write-at-most-once holds only because
the resolver excludes already-seen items upstream. -/
theorem C3_suggestedAt_amended : ∀ (store : List VineItemRecord) (item : VineItemInput)
    (sugg : Bool) (asins : List String) (items : List VineItemInput)
    (suggestedAsins : List String) (now : Nat) (a : String) (t : Nat),
    suggestedAtOf store a = some (some t) →
    suggestedAtOf (upsertItem store item false now) a = some (some t) ∧
    suggestedAtOf (upsertItem store item sugg now) a =
      some (some (if item.asin = a ∧ sugg = true then now else t)) ∧
    suggestedAtOf (markAsSuggested store asins now) a =
      some (some (if asins.contains a = true then now else t)) ∧
    (∃ u, suggestedAtOf (saveScanItems store items suggestedAsins now) a = some (some u)) := by
  intro store item sugg asins items suggestedAsins now a t h
  refine ⟨?_, suggestedAtOf_upsertItem store item sugg now a t h,
    suggestedAtOf_markAsSuggested asins now store a t h,
    saveScanItems_preserves_suggested suggestedAsins now items store a t h⟩
  have h' := suggestedAtOf_upsertItem store item false now a t h
  simpa using h'

/-- Witness for C3 (amended): a re-scan upsert with `suggested = false`
leaves the stored suggestion timestamp 3 untouched. -/
theorem C3_suggestedAt_amended_witness :
    suggestedAtOf [⟨"B0BBBBBBB2", VineTabId.available, "x", "l", none, 1, some 3⟩]
        "B0BBBBBBB2" = some (some 3) ∧
    suggestedAtOf
        (upsertItem [⟨"B0BBBBBBB2", VineTabId.available, "x", "l", none, 1, some 3⟩]
          ⟨"B0BBBBBBB2", VineTabId.available, "y", "l", none, 4⟩ false 8)
        "B0BBBBBBB2" = some (some 3) :=
  ⟨by decide,
    (C3_suggestedAt_amended [⟨"B0BBBBBBB2", VineTabId.available, "x", "l", none, 1, some 3⟩]
      ⟨"B0BBBBBBB2", VineTabId.available, "y", "l", none, 4⟩ false [] [] [] 8
      "B0BBBBBBB2" 3 (by decide)).1⟩

/-! ## Claim theorems: classification cap (C6) -/

/-- The splice loop only repartitions the queue: the flushed batches
followed by the remaining queue are exactly the original accumulator
content followed by the original queue. -/
theorem flushGo_flatten (batchSize : Nat) :
    ∀ (fuel : Nat) (pending : List VineItem) (acc : List (List VineItem)),
    (flushGo batchSize fuel pending acc).2.flatten ++ (flushGo batchSize fuel pending acc).1 =
      acc.flatten ++ pending := by
  intro fuel
  induction fuel with
  | zero => intro pending acc; rfl
  | succ n ih =>
    intro pending acc
    rw [flushGo]
    by_cases h : 0 < batchSize ∧ batchSize ≤ pending.length
    · rw [if_pos h]
      rw [ih]
      simp [List.append_assoc]
    · rw [if_neg h]

/-- Running `flushLoop` repartitions the queue into batches plus remainder. -/
theorem flushLoop_flatten (batchSize : Nat) (pending : List VineItem) :
    (flushLoop batchSize pending).2.flatten ++ (flushLoop batchSize pending).1 = pending := by
  simpa using flushGo_flatten batchSize pending.length pending []

/-- Invariant of the dispatch fold: starting from a consistent state, the
flushed batches plus the pending queue are exactly the previously admitted
items followed by the prefix of the incoming stream that fits the budget. -/
theorem dispatchFold_flatten (batchSize maxNew : Nat) :
    ∀ (chunks : List (List VineItem)) (pending : List VineItem)
      (fsAcc : List (List VineItem)) (tq : Nat),
    tq = (fsAcc.flatten ++ pending).length → tq ≤ maxNew →
    ((chunks.foldl (dispatchStep batchSize maxNew) (pending, tq, fsAcc)).2.2.flatten ++
        (chunks.foldl (dispatchStep batchSize maxNew) (pending, tq, fsAcc)).1) =
      fsAcc.flatten ++ pending ++ chunks.flatten.take (maxNew - tq) := by
  intro chunks
  induction chunks with
  | nil =>
    intro pending fsAcc tq htq hle
    simp
  | cons c rest ih =>
    intro pending fsAcc tq htq hle
    have hstep : dispatchStep batchSize maxNew (pending, tq, fsAcc) c =
        ((flushLoop batchSize (pending ++ c.take (maxNew - tq))).1,
          tq + (c.take (maxNew - tq)).length,
          fsAcc ++ (flushLoop batchSize (pending ++ c.take (maxNew - tq))).2) := rfl
    rw [List.foldl_cons, hstep, List.flatten_cons, List.take_append_eq_append_take]
    have hqlen : (c.take (maxNew - tq)).length = min (maxNew - tq) c.length :=
      List.length_take _ _
    generalize hq : c.take (maxNew - tq) = q at *
    have hflush := flushLoop_flatten batchSize (pending ++ q)
    generalize hfl : flushLoop batchSize (pending ++ q) = fl at *
    obtain ⟨p1, fs1⟩ := fl
    dsimp only at hflush ⊢
    have htqlen : tq = fsAcc.flatten.length + pending.length := by simpa using htq
    have hlen2 : fs1.flatten.length + p1.length = pending.length + q.length := by
      have hc := congrArg List.length hflush
      simpa using hc
    have htq' : tq + q.length = ((fsAcc ++ fs1).flatten ++ p1).length := by
      rw [List.flatten_append]
      simp only [List.length_append]
      omega
    have hle' : tq + q.length ≤ maxNew := by omega
    rw [ih p1 (fsAcc ++ fs1) (tq + q.length) htq' hle']
    rw [show maxNew - (tq + q.length) = maxNew - tq - c.length by omega]
    rw [List.flatten_append]
    rw [List.append_assoc fsAcc.flatten fs1.flatten]
    rw [hflush]
    simp [List.append_assoc]

/-- C6: over any cycle, the batches handed to the classification callback
(all splice flushes plus the final remainder flush) contain exactly the
first `maxNew` unseen items of the discovered stream — items beyond the
cap are dropped at enqueue time and never classified — so the total item
count over all batches is at most the configured max-items-per-run. -/
theorem C6_classification_cap : ∀ (batchSize maxNew : Nat)
    (chunks : List (List VineItem)),
    (runDispatch batchSize maxNew chunks).flatten = chunks.flatten.take maxNew ∧
    ((runDispatch batchSize maxNew chunks).map List.length).sum ≤ maxNew := by
  intro batchSize maxNew chunks
  have hfold := dispatchFold_flatten batchSize maxNew chunks [] [] 0 (by simp) (by omega)
  have hflat : (runDispatch batchSize maxNew chunks).flatten = chunks.flatten.take maxNew := by
    rw [runDispatch]
    rw [List.flatten_append]
    by_cases hp : (chunks.foldl (dispatchStep batchSize maxNew) ([], 0, [])).1 = []
    · rw [if_pos hp]
      rw [hp] at hfold
      simpa using hfold
    · rw [if_neg hp]
      simpa using hfold
  refine ⟨hflat, ?_⟩
  have hlen := congrArg List.length hflat
  rw [List.length_flatten] at hlen
  rw [hlen, List.length_take]
  omega

/-! ## Claim theorems: dispatch concurrency (C9) -/

/-- The empty trace leaves no call in flight. -/
theorem callsAwaited_nil : CallsAwaited [] := by
  intro i b h
  cases i <;> cases h

/-- Prefixing a non-call event preserves the awaited-calls property. -/
theorem callsAwaited_cons_of_ne (x : Ev) (t : List Ev)
    (hx : ∀ b, x ≠ Ev.classifyCall b) (h : CallsAwaited t) :
    CallsAwaited (x :: t) := by
  intro i b hi
  cases i with
  | zero =>
    rw [List.getElem?_cons_zero] at hi
    exact absurd (Option.some.inj hi) (hx b)
  | succ j =>
    rw [List.getElem?_cons_succ] at hi
    rw [show j + 1 + 1 = (j + 1) + 1 from rfl, List.getElem?_cons_succ]
    exact h j b hi

/-- Prefixing a call whose return is the very next event preserves the
awaited-calls property. -/
theorem callsAwaited_cons_call (b0 : List VineItem) (t : List Ev)
    (ht : CallsAwaited t) (h0 : t[0]? = some (Ev.classifyRet b0)) :
    CallsAwaited (Ev.classifyCall b0 :: t) := by
  intro i b hi
  cases i with
  | zero =>
    rw [List.getElem?_cons_zero] at hi
    have hb : b0 = b := by
      cases Option.some.inj hi
      rfl
    rw [List.getElem?_cons_succ]
    rw [← hb]
    exact h0
  | succ j =>
    rw [List.getElem?_cons_succ] at hi
    rw [show j + 1 + 1 = (j + 1) + 1 from rfl, List.getElem?_cons_succ]
    exact ht j b hi

/-- A block of adjacent call/return pairs in front of an awaited trace is
awaited. -/
theorem callsAwaited_pairs (t : List Ev) (h : CallsAwaited t) :
    ∀ fs : List (List VineItem),
    CallsAwaited ((fs.map (fun b => [Ev.classifyCall b, Ev.classifyRet b])).flatten ++ t) := by
  intro fs
  induction fs with
  | nil => simpa using h
  | cons b bs ih =>
    rw [List.map_cons, List.flatten_cons]
    show CallsAwaited (Ev.classifyCall b :: Ev.classifyRet b ::
      ((bs.map (fun b => [Ev.classifyCall b, Ev.classifyRet b])).flatten ++ t))
    apply callsAwaited_cons_call
    · exact callsAwaited_cons_of_ne _ _ (fun b hc => by cases hc) ih
    · exact List.getElem?_cons_zero

/-- C9 (amended): in every cycle trace, each flushed classification call's
return immediately follows its start — the crawler `await`s the
classification callback, so page navigation never proceeds (and nothing
else happens) while a classification request is outstanding; only after
the call resolves does crawling continue, and the remainder flush behaves
the same way. -/
theorem C9_calls_awaited : ∀ (batchSize maxNew : Nat)
    (yields : List (Nat × List VineItem)) (pending : List VineItem) (tq : Nat),
    CallsAwaited (traceOfYields batchSize maxNew yields pending tq) := by
  intro batchSize maxNew yields
  induction yields with
  | nil =>
    intro pending tq
    rw [traceOfYields]
    by_cases hp : pending = []
    · rw [if_pos hp]
      exact callsAwaited_nil
    · rw [if_neg hp]
      apply callsAwaited_cons_call
      · exact callsAwaited_cons_of_ne _ _ (fun b hc => by cases hc) callsAwaited_nil
      · exact List.getElem?_cons_zero
  | cons y rest ih =>
    intro pending tq
    obtain ⟨n, ys⟩ := y
    rw [traceOfYields]
    by_cases hy : ys = []
    · rw [if_pos hy]
      exact callsAwaited_cons_of_ne _ _ (fun b hc => by cases hc) (ih pending tq)
    · rw [if_neg hy]
      exact callsAwaited_cons_of_ne _ _ (fun b hc => by cases hc)
        (callsAwaited_pairs _ (ih _ _) _)

/-- Witness for C9 (amended): the remainder flush of a one-item queue
produces a call at index 0 whose return is at index 1. -/
theorem C9_calls_awaited_witness :
    (traceOfYields 1 10 []
        [⟨"B0CCCCCCC3", VineTabId.additional, "w", "l", none, 0⟩] 1)[1]? =
      some (Ev.classifyRet [⟨"B0CCCCCCC3", VineTabId.additional, "w", "l", none, 0⟩]) :=
  C9_calls_awaited 1 10 [] [⟨"B0CCCCCCC3", VineTabId.additional, "w", "l", none, 0⟩] 1
    0 [⟨"B0CCCCCCC3", VineTabId.additional, "w", "l", none, 0⟩] (by decide)

/-- Item constructor for the C9 counterexample environment. -/
def c9Item (k : Nat) : VineItem :=
  ⟨toString k, VineTabId.additional, toString k, toString k, none, 0⟩

/-- Two pages of 3 fresh items each (then an empty page), as produced by a
crawl with batch size 3 — each page flushes exactly one classification
batch. -/
def c9Pages (n : Nat) : List (String × VineItem) :=
  if n < 2 then (List.range 3).map (fun i => (toString (3 * n + i), c9Item (3 * n + i)))
  else []

/-- The concrete cycle trace for the counterexample: crawl `c9Pages`
(total count 60, no seen-predicate, pagination always succeeds) with batch
size 3 and cap 100. -/
def c9Trace : List Ev :=
  traceOfYields 3 100
    (collectUnseenItemsInTab c9Pages none (fun _ => true) 0 60 none).pageYields [] 0

/-- Counterexample to C9: in the concrete trace the first batch's
classification return (index 2) precedes the fetch of the next page
(index 3) — crawling waited for the classification result before fetching
page 2, contradicting "page navigation continues while the classification
request is in flight". -/
theorem C9_fire_and_forget_counterexample :
    c9Trace =
      [Ev.fetch 0, Ev.classifyCall [c9Item 0, c9Item 1, c9Item 2],
        Ev.classifyRet [c9Item 0, c9Item 1, c9Item 2],
        Ev.fetch 1, Ev.classifyCall [c9Item 3, c9Item 4, c9Item 5],
        Ev.classifyRet [c9Item 3, c9Item 4, c9Item 5],
        Ev.fetch 2] ∧
    c9Trace.indexOf (Ev.classifyRet [c9Item 0, c9Item 1, c9Item 2]) <
      c9Trace.indexOf (Ev.fetch 1) := by
  refine ⟨by decide, by decide⟩

/-! ## Claim theorems: crawler escape and budget (C4, C5) -/

/-- The page bound `maxPages` is always at least 1 (page 1 is always displayed). -/
theorem maxPagesOf_pos (mp tc : Nat) : 0 < maxPagesOf mp tc := by
  simp only [maxPagesOf]
  rw [lt_min_iff]
  refine ⟨by omega, ?_⟩
  split_ifs <;> omega

/-- If every identifier of page `K` is reported seen, that page's unseen
remainder is empty. -/
theorem filterUnseen_eq_nil (g : List String → List String)
    (raw : List (String × VineItem))
    (h : ∀ p ∈ raw, p.1 ∈ g (raw.map Prod.fst)) :
    filterUnseen (some g) raw = [] := by
  simp only [filterUnseen]
  rw [List.filter_eq_nil_iff]
  intro p hp
  simpa using h p hp

/-- Escape invariant of the page loop: if page `K`'s unseen remainder is
empty, then starting from any page number at most `K` the crawler never
attempts pagination to page `K + 1` and never displays page `K + 1`. -/
theorem collectGo_escape (pages : Nat → List (String × VineItem))
    (getSeen : Option (List String → List String)) (advance : Nat → Bool)
    (cap : Option Nat) (K : Nat)
    (hK : filterUnseen getSeen (pages K) = []) :
    ∀ (fuel pageNum : Nat) (acc : List (String × VineItem)), pageNum ≤ K →
    (K + 1) ∉ (collectGo pages getSeen advance cap fuel pageNum acc).navAttempts ∧
    (K + 1) ∉ (collectGo pages getSeen advance cap fuel pageNum acc).pageYields.map Prod.fst := by
  intro fuel
  induction fuel with
  | zero =>
    intro pageNum acc hle
    constructor
    · intro hc
      cases hc
    · intro hc
      cases hc
  | succ n ih =>
    intro pageNum acc hle
    rw [collectGo]
    by_cases h1 : pageNum ≠ 0 ∧ advance pageNum = false
    · rw [if_pos h1]
      refine ⟨?_, by simp⟩
      simp only [List.mem_singleton]
      omega
    · rw [if_neg h1]
      by_cases h2 : (filterUnseen getSeen (pages pageNum)).length = 0
      · rw [if_pos h2]
        refine ⟨?_, ?_⟩
        · by_cases h0 : pageNum = 0
          · simp [h0]
          · simp only [if_neg h0, List.mem_singleton]
            omega
        · simp only [List.map_cons, List.map_nil, List.mem_singleton]
          omega
      · rw [if_neg h2]
        by_cases h3 : capReached cap (filterUnseen getSeen (pages pageNum)).length = true
        · rw [if_pos h3]
          refine ⟨?_, ?_⟩
          · by_cases h0 : pageNum = 0
            · simp [h0]
            · simp only [if_neg h0, List.mem_singleton]
              omega
          · simp only [List.map_cons, List.map_nil, List.mem_singleton]
            omega
        · rw [if_neg h3]
          have hlt : pageNum < K := by
            rcases Nat.lt_or_ge pageNum K with h | h
            · exact h
            · have heq : pageNum = K := Nat.le_antisymm hle h
              rw [heq, hK] at h2
              exact absurd rfl h2
          have ihn := ih (pageNum + 1)
            (objMerge acc (filterUnseen getSeen (pages pageNum))) (by omega)
          refine ⟨?_, ?_⟩
          · intro hmem
            simp only [List.mem_append] at hmem
            rcases hmem with hmem | hmem
            · by_cases h0 : pageNum = 0
              · simp [h0] at hmem
              · rw [if_neg h0, List.mem_singleton] at hmem
                omega
            · exact ihn.1 hmem
          · intro hmem
            simp only [List.map_cons, List.mem_cons] at hmem
            rcases hmem with hmem | hmem
            · omega
            · exact ihn.2 hmem

/-- C5: for every leaf crawl with a seen-predicate, if every extracted
identifier on page `K` is in the seen set returned for that page, the
crawler neither attempts pagination to page `K + 1` nor displays it; and
when that page is page 1 (`K = 0`) the crawl returns zero unseen items,
having displayed only page 1. -/
theorem C5_escape_correct : ∀ (pages : Nat → List (String × VineItem))
    (g : List String → List String) (advance : Nat → Bool)
    (mp tc : Nat) (cap : Option Nat) (K : Nat),
    (∀ p ∈ pages K, p.1 ∈ g ((pages K).map Prod.fst)) →
    (K + 1) ∉ (collectUnseenItemsInTab pages (some g) advance mp tc cap).navAttempts ∧
    (K + 1) ∉ (collectUnseenItemsInTab pages (some g) advance mp tc cap).pageYields.map
      Prod.fst ∧
    (K = 0 →
      (collectUnseenItemsInTab pages (some g) advance mp tc cap).items = [] ∧
      (collectUnseenItemsInTab pages (some g) advance mp tc cap).pageYields.map
        Prod.fst = [0]) := by
  intro pages g advance mp tc cap K h
  have hfil : filterUnseen (some g) (pages K) = [] := filterUnseen_eq_nil g (pages K) h
  have hesc := collectGo_escape pages (some g) advance cap K hfil
  refine ⟨?_, ?_, ?_⟩
  · exact (hesc (maxPagesOf mp tc) 0 [] (Nat.zero_le K)).1
  · exact (hesc (maxPagesOf mp tc) 0 [] (Nat.zero_le K)).2
  · intro hK0
    subst hK0
    unfold collectUnseenItemsInTab
    cases hmp : maxPagesOf mp tc with
    | zero => exact absurd hmp (by have := maxPagesOf_pos mp tc; omega)
    | succ k =>
      rw [collectGo]
      rw [if_neg (by simp)]
      rw [if_pos (by rw [hfil]; rfl)]
      rw [hfil]
      refine ⟨?_, ?_⟩ <;> rfl

/-- Witness for C5: a concrete leaf (total count 50, one full page of 24
identifiers, all marked seen by the predicate) stops after page 1 with zero
unseen items and never paginates to page 2. -/
theorem C5_escape_correct_witness :
    1 ∉ (collectUnseenItemsInTab
        (fun n => if n = 0 then
          (List.range 24).map (fun i => (toString i,
            (⟨toString i, VineTabId.additional, toString i, toString i, none, 0⟩ : VineItem)))
          else [])
        (some (fun l => l)) (fun _ => true) 0 50 none).navAttempts ∧
    (collectUnseenItemsInTab
        (fun n => if n = 0 then
          (List.range 24).map (fun i => (toString i,
            (⟨toString i, VineTabId.additional, toString i, toString i, none, 0⟩ : VineItem)))
          else [])
        (some (fun l => l)) (fun _ => true) 0 50 none).items = [] ∧
    (collectUnseenItemsInTab
        (fun n => if n = 0 then
          (List.range 24).map (fun i => (toString i,
            (⟨toString i, VineTabId.additional, toString i, toString i, none, 0⟩ : VineItem)))
          else [])
        (some (fun l => l)) (fun _ => true) 0 50 none).pageYields.map Prod.fst = [0] := by
  have h := C5_escape_correct
    (fun n => if n = 0 then
      (List.range 24).map (fun i => (toString i,
        (⟨toString i, VineTabId.additional, toString i, toString i, none, 0⟩ : VineItem)))
      else [])
    (fun l => l) (fun _ => true) 0 50 none 0
    (fun p hp => List.mem_map_of_mem Prod.fst hp)
  exact ⟨h.1, (h.2.2 rfl).1, (h.2.2 rfl).2⟩

/-- Page environment for the C4 budget evidence: four pages of 6 distinct
fresh identifiers each, a total-count of 96 (4 pages), nothing seen,
pagination always succeeds. -/
def budgetPages (n : Nat) : List (String × VineItem) :=
  if n < 4 then
    (List.range 6).map (fun i => (toString (6 * n + i),
      (⟨toString (6 * n + i), VineTabId.additional, toString (6 * n + i),
        toString (6 * n + i), none, 0⟩ : VineItem)))
  else []

set_option maxRecDepth 4000 in
/-- C4 evidence: with a leaf item budget of 10 the crawler displays all
four pages and collects 24 items — after page 2 the cumulative count (12)
exceeds the budget, yet pagination to pages 3 and 4 still happens, because
the cap check compares each single page's unseen yield (6) to the budget
and the escape check runs first. -/
theorem C4_budget_not_cumulative :
    (collectUnseenItemsInTab budgetPages (some (fun _ => [])) (fun _ => true)
        0 96 (some 10)).pageYields.map Prod.fst = [0, 1, 2, 3] ∧
    (collectUnseenItemsInTab budgetPages (some (fun _ => [])) (fun _ => true)
        0 96 (some 10)).navAttempts = [1, 2, 3] ∧
    (collectUnseenItemsInTab budgetPages (some (fun _ => [])) (fun _ => true)
        0 96 (some 10)).items.length = 24 := by
  refine ⟨by decide, by decide, by decide⟩

/-! ## Claim theorems: snapshot pruning (C8) -/

/-- Counterexample to C8: with an empty enumerated key set the pruning
commit is an early-return no-op, so a previously stored snapshot key that is
not among this cycle's enumerated keys (there are none) survives, and an
unvisited category keeps its subcategory entries. -/
theorem C8_pruning_counterexample :
    clearCategoryCountsNotIn [] [] [⟨"cat1", none, some 3, [⟨"s1", none, 2⟩]⟩] =
      [⟨"cat1", none, some 3, [⟨"s1", none, 2⟩]⟩] ∧
    snapshotKeys [⟨"cat1", none, some 3, [⟨"s1", none, 2⟩]⟩] = ["cat1", "cat1|s1"] ∧
    subSnapshotKeys [⟨"cat1", none, some 3, [⟨"s1", none, 2⟩]⟩] = ["cat1|s1"] :=
  ⟨rfl, rfl, rfl⟩

/-- C8 (amended): when the enumerated key set is non-empty, every surviving
subcategory-level key is among the enumerated keys, every surviving doc's
category id underlies some enumerated key, and every unvisited surviving
category has its subcategory entries cleared; but with an empty enumerated
key set the operation does nothing (and a parent-only count entry survives
whenever any enumerated key shares its category id, even if the
category-only key itself was not enumerated). -/
theorem C8_pruning_amended : ∀ (seen visited : List String) (docs : List CategoryCountDoc),
    seen ≠ [] →
    (∀ k ∈ subSnapshotKeys (clearCategoryCountsNotIn seen visited docs), k ∈ seen) ∧
    (∀ d ∈ clearCategoryCountsNotIn seen visited docs,
      (seen.map categoryPartOfKey).contains d.pn = true ∧
      (visited.contains d.pn = false → d.subcategories = [])) ∧
    (∀ (visited' : List String) (docs' : List CategoryCountDoc),
      clearCategoryCountsNotIn [] visited' docs' = docs') := by
  intro seen visited docs hne
  have hemp : seen.isEmpty = false := by
    cases seen with
    | nil => exact absurd rfl hne
    | cons x xs => rfl
  refine ⟨?_, ?_, fun v d => rfl⟩
  · intro k hk
    rw [clearCategoryCountsNotIn, hemp] at hk
    simp only [Bool.false_eq_true, if_false] at hk
    rw [subSnapshotKeys, List.mem_flatten] at hk
    obtain ⟨l, hl, hkl⟩ := hk
    rw [List.mem_map] at hl
    obtain ⟨d', hd', rfl⟩ := hl
    rw [List.mem_map] at hd'
    obtain ⟨d0, hd0, rfl⟩ := hd'
    rw [List.mem_map] at hkl
    obtain ⟨s, hs, rfl⟩ := hkl
    by_cases hv : d0.pn ∈ visited
    · have hs' : s ∈ d0.subcategories ∧ formatCategoryKey d0.pn (some s.cn) ∈ seen := by
        simpa [hv] using hs
      exact hs'.2
    · have hfalse : False := by
        simp [hv] at hs
      exact hfalse.elim
  · intro d hd
    rw [clearCategoryCountsNotIn, hemp] at hd
    simp only [Bool.false_eq_true, if_false] at hd
    rw [List.mem_map] at hd
    obtain ⟨d0, hd0, rfl⟩ := hd
    have hq := (List.mem_filter.mp hd0).2
    refine ⟨by simpa using hq, ?_⟩
    intro hnv
    have hv : visited.contains d0.pn = false := hnv
    show (if visited.contains d0.pn = true then
        d0.subcategories.filter (fun s => seen.contains (formatCategoryKey d0.pn (some s.cn)))
      else []) = []
    exact if_neg (by rw [hv]; simp)

/-- Witness for C8 (amended): at a concrete non-empty key set, every
surviving subcategory key is enumerated. -/
theorem C8_pruning_amended_witness :
    (["a"] : List String) ≠ [] ∧
    (∀ k ∈ subSnapshotKeys
        (clearCategoryCountsNotIn ["a"] [] [⟨"a", none, some 1, [⟨"b", none, 2⟩]⟩]),
      k ∈ (["a"] : List String)) :=
  ⟨by simp,
    (C8_pruning_amended ["a"] [] [⟨"a", none, some 1, [⟨"b", none, 2⟩]⟩] (by simp)).1⟩

/-! ## Claim theorems: subcategory filter (C2) -/

/-- Counterexample to C2: with subcategory list `["Tools"]` and a
semantically empty oracle subset (`names = []`), the src/ai.ts variant
returns the full subcategory list, and the planner's to-scrape selection
is then every subcategory leaf under the category — not nothing. -/
theorem C2_empty_subset_counterexample :
    filterSubcategoriesSelect ["Tools"] [] = ["Tools"] ∧
    plannerToScrape [⟨"Tools", "101", 5⟩] (filterSubcategoriesSelect ["Tools"] []) =
      [⟨"Tools", "101", 5⟩] ∧
    [(⟨"Tools", "101", 5⟩ : SubcategoryNode)] ≠ [] := by
  refine ⟨by decide, by decide, by decide⟩

/-- C2 (amended): the planner selects for crawling exactly the
subcategories whose names appear in the filter function's returned list
(per-leaf count-unchanged and parts-bucket skips apply afterwards); under
the logging variant (part_004) an empty oracle subset is propagated
unchanged, so no subcategory is selected; the src/ai.ts variant instead
falls back to the full subcategory list when the filtered subset is
empty. -/
theorem C2_empty_subset_amended : ∀ (subs : List SubcategoryNode)
    (subNames names : List String),
    filterSubcategoriesSelectLogged subNames [] = [] ∧
    plannerToScrape subs (filterSubcategoriesSelectLogged subNames []) = [] ∧
    (∀ s, s ∈ plannerToScrape subs names ↔ s ∈ subs ∧ s.name ∈ names) := by
  intro subs subNames names
  refine ⟨rfl, ?_, ?_⟩
  · simp [plannerToScrape, filterSubcategoriesSelectLogged]
  · intro s
    simp [plannerToScrape, List.mem_filter]

/-- Witness for C2 (amended): at a concrete category with two subcategories
and oracle answer `["Tools"]`, the planner crawls exactly `Tools`. -/
theorem C2_empty_subset_amended_witness :
    (⟨"Tools", "101", 5⟩ : SubcategoryNode) ∈
      plannerToScrape [⟨"Tools", "101", 5⟩, ⟨"Parts", "102", 9⟩] ["Tools"] ∧
    ¬ (⟨"Parts", "102", 9⟩ : SubcategoryNode) ∈
      plannerToScrape [⟨"Tools", "101", 5⟩, ⟨"Parts", "102", 9⟩] ["Tools"] := by
  constructor
  · exact ((C2_empty_subset_amended [⟨"Tools", "101", 5⟩, ⟨"Parts", "102", 9⟩] []
      ["Tools"]).2.2 ⟨"Tools", "101", 5⟩).mpr ⟨by simp, by simp⟩
  · intro hmem
    have h := ((C2_empty_subset_amended [⟨"Tools", "101", 5⟩, ⟨"Parts", "102", 9⟩] []
      ["Tools"]).2.2 ⟨"Parts", "102", 9⟩).mp hmem
    exact absurd h.2 (by simp)

end VineMonitor
